import Mathlib

/-!
# Verification of the stationary-source matching core (daomop/stationary.py)

A shallow embedding of the catalog cross-matching and sharded-merge engine of
`src/daomop/stationary.py`, together with theorems settling the specification
claims about it.

Conventions of the embedding:
* FITS table rows become the structure `SourceRow`; a catalog or shard is a
  `List SourceRow` in table order.
* Sky positions (`X_WORLD`/`Y_WORLD`, degrees) are held in exact fixed-point
  units of `1/72000000` degree, so that the matching tolerance of
  `0.5/3600` degrees is exactly `10000` units and every separation comparison
  of the source is an exact integer comparison.  Distances are squared planar
  Euclidean separations, exactly as the reference matcher treats RA/Dec as
  planar coordinates with no spherical correction.
* Times (`MJDATE`, `EXPTIME`, `mid_mjdate`) are exact rationals in the
  source's own units (days and seconds).
* `util.match_lists` and the storage-collaborator semantics (`get_status`,
  `HPXCatalog.get`/`put`, ENOENT handling) live outside the provided sources;
  they are modelled from the spec where noted.
-/

/-- A sky position: `X_WORLD`/`Y_WORLD`, in fixed-point units of
`1/72000000` degree. -/
structure Pos where
  x : ℤ
  y : ℤ
deriving DecidableEq, Repr

/-- Squared planar separation (fixed-point units squared), with no spherical
correction: the matcher treats RA/Dec as planar coordinates. -/
def dist2 (a b : Pos) : ℤ :=
  (a.x - b.x) * (a.x - b.x) + (a.y - b.y) * (a.y - b.y)

/-- Squared matching tolerance: `(0.5 / 3600)` degrees is `10000` fixed-point
units, so the squared tolerance is `10^8` — the tight 0.5 arcsecond tolerance
used both for HPXID assignment and for MATCHES counting. -/
def tol2 : ℤ := 100000000

/-- Modelled from the spec: the nearest-point search inside `util.match_lists`
(SpatialMatcher, spec section 4.1; `util.py` is not among the provided
sources).  Returns the index and squared distance of the nearest point of the
list to the query, the strictly smaller distance winning and ties broken by
the first-encountered index; `none` on an empty list. -/
def bestIn (q : Pos) : List Pos → Option (Nat × ℤ)
  | [] => none
  | p :: rest =>
    match bestIn q rest with
    | none => some (0, dist2 q p)
    | some (j, d) =>
      if dist2 q p ≤ d then some (0, dist2 q p) else some (j + 1, d)

/-- Modelled from the spec: the per-point verdict of `util.match_lists`
(SpatialMatcher, spec section 4.1): the index of the nearest point of `pts`
to `q` when its separation is within tolerance, else `none`. -/
def bestMatch (q : Pos) (pts : List Pos) : Option Nat :=
  match bestIn q pts with
  | none => none
  | some (j, d) => if d ≤ tol2 then some j else none

/-- Modelled from the spec: the second return value (`idx2`) of
`util.match_lists(p1, p2, tolerance)`: for each point of `p2`, the index in
`p1` of its matched point, masked (`none`) when unmatched.  This is the
direction the call sites of `stationary.py` consume. -/
def matchListsB (p1 p2 : List Pos) : List (Option Nat) :=
  p2.map (fun b => bestMatch b p1)

/-- One detected source: one row of a `.cat.fits` exposure-chip catalog or of
a per-pixel HPX shard catalog, with the columns `stationary.py` reads or
writes (`X_WORLD`, `Y_WORLD`, `HEALPIX`, `HPXID`, `MATCHES`, `OVERLAPS`,
`dataset_name`, `mid_mjdate`). -/
structure SourceRow where
  X_WORLD : ℤ
  Y_WORLD : ℤ
  HEALPIX : Nat
  HPXID : Int
  MATCHES : Nat
  OVERLAPS : Nat
  dataset_name : String
  mid_mjdate : ℚ
deriving DecidableEq, Repr

/-- The sky position of a row. -/
def rowPos (r : SourceRow) : Pos := ⟨r.X_WORLD, r.Y_WORLD⟩

/-- Apply `f` to the element at index `i`, leaving the list unchanged when the
index is out of range (the embedding of a numpy indexed assignment). -/
def modifyIdx (f : SourceRow → SourceRow) : Nat → List SourceRow → List SourceRow
  | _, [] => []
  | 0, r :: rs => f r :: rs
  | n + 1, r :: rs => r :: modifyIdx f n rs

-- Basic facts about `modifyIdx`.

theorem modifyIdx_length (f : SourceRow → SourceRow) (i : Nat) (l : List SourceRow) :
    (modifyIdx f i l).length = l.length := by
  induction l generalizing i with
  | nil => cases i <;> rfl
  | cons r rs ih =>
    cases i with
    | zero => rfl
    | succ n => simpa [modifyIdx] using ih n

theorem get?_modifyIdx_self (f : SourceRow → SourceRow) (i : Nat) (l : List SourceRow) :
    (modifyIdx f i l).get? i = (l.get? i).map f := by
  induction l generalizing i with
  | nil => cases i <;> rfl
  | cons r rs ih =>
    cases i with
    | zero => rfl
    | succ n => simpa [modifyIdx] using ih n

theorem get?_modifyIdx_ne (f : SourceRow → SourceRow) (i j : Nat) (l : List SourceRow)
    (h : i ≠ j) : (modifyIdx f i l).get? j = l.get? j := by
  induction l generalizing i j with
  | nil => cases i <;> rfl
  | cons r rs ih =>
    cases i with
    | zero =>
      cases j with
      | zero => exact absurd rfl h
      | succ m => rfl
    | succ n =>
      cases j with
      | zero => rfl
      | succ m =>
        simpa [modifyIdx] using ih n m (fun hnm => h (by rw [hnm]))

/-- Sanity check of the matcher against the spec's tolerance example: two
points `0.468` arcseconds apart (`9360` fixed-point units) match, two points
one arcsecond apart (`20000` units) do not, and the nearest point wins. -/
theorem bestMatch_tolerance_check :
    bestMatch ⟨720000000, 0⟩ [⟨720009360, 0⟩] = some 0
    ∧ bestMatch ⟨720000000, 0⟩ [⟨720020000, 0⟩] = none
    ∧ bestMatch ⟨0, 0⟩ [⟨100000, 100000⟩, ⟨0, 0⟩] = some 1 := by
  decide

/-!
## HPXID assignment (`match`, lines 103-121)

`match` initialises `HPXID` to `-1`, then for each distinct `HEALPIX` value of
the catalog (in ascending order, as `numpy.unique` returns them) loads the
pixel's HPX shard, writes the shard rows' `HPXID` onto the catalog rows they
matched (`catalog.table['HPXID'][idx2.data[~idx2.mask]] =
hpx_cat.table['HPXID'][~idx2.mask]`, later assignments overwriting earlier
ones), and finally gives every still-unassigned row of that pixel a sequential
`HPXID` starting at the shard's row count at read time (`hpx_cat_len`, zero
when the shard did not exist).
-/

/-- `numpy.unique` over the `HEALPIX` column: insert into a strictly
ascending list, dropping duplicates. -/
def insertSorted (n : Nat) : List Nat → List Nat
  | [] => [n]
  | m :: ms =>
    if n < m then n :: m :: ms
    else if n = m then m :: ms
    else m :: insertSorted n ms

/-- The distinct `HEALPIX` values of a catalog, in ascending order
(`numpy.unique(catalog.table['HEALPIX'])`). -/
def uniquePixels (cat : List SourceRow) : List Nat :=
  (cat.map (fun r => r.HEALPIX)).foldr insertSorted []

/-- `catalog.table['HPXID'] = -1` (line 104). -/
def initHpx (cat : List SourceRow) : List SourceRow :=
  cat.map (fun r => { r with HPXID := -1 })

/-- One vectorised assignment step: a pair of `idx2` verdict and shard row;
when the shard row matched catalog index `i`, the catalog row `i` receives the
shard row's `HPXID`. -/
def applyPair (c : List SourceRow) (pr : Option Nat × SourceRow) : List SourceRow :=
  match pr.1 with
  | some i => modifyIdx (fun r => { r with HPXID := pr.2.HPXID }) i c
  | none => c

/-- Line 113: `catalog.table['HPXID'][idx2.data[~idx2.mask]] =
hpx_cat.table['HPXID'][~idx2.mask]` — every shard row that matched a catalog
row hands its `HPXID` to that row, later shard rows overwriting earlier
ones. -/
def applyShardMatches (p1 : List Pos) (shard : List SourceRow) (c : List SourceRow) :
    List SourceRow :=
  ((matchListsB p1 (shard.map rowPos)).zip shard).foldl applyPair c

/-- Lines 118-121: every row of pixel `pix` whose `HPXID` is still negative
receives `hpx_cat_len + 0, hpx_cat_len + 1, ...` in catalog order. -/
def assignSeqAux (pix : Nat) (n : Nat) : List SourceRow → List SourceRow
  | [] => []
  | r :: rs =>
    if r.HPXID < 0 ∧ r.HEALPIX = pix then
      { r with HPXID := (n : Int) } :: assignSeqAux pix (n + 1) rs
    else
      r :: assignSeqAux pix n rs

/-- The body of the per-pixel loop of lines 105-121: when the pixel's shard
exists, copy matched rows' identifiers and count sequentially from the shard
length; when it does not (`ENOENT`), `hpx_cat_len` stays `0` and no match is
applied. -/
def assignPixel (shards : Nat → Option (List SourceRow)) (p1 : List Pos)
    (pix : Nat) (c : List SourceRow) : List SourceRow :=
  match shards pix with
  | some shard => assignSeqAux pix shard.length (applyShardMatches p1 shard c)
  | none => assignSeqAux pix 0 c

/-- Lines 103-121 in full: initialise `HPXID` to `-1`, then run the per-pixel
loop over the distinct `HEALPIX` values, matching the full catalog position
list `p1` (computed once, lines 100-101) against each pixel's shard. -/
def assignAll (shards : Nat → Option (List SourceRow)) (cat : List SourceRow) :
    List SourceRow :=
  (uniquePixels cat).foldl (fun c pix => assignPixel shards (cat.map rowPos) pix c)
    (initHpx cat)

/-- The set of catalog indices targeted by a shard's `idx2` verdicts: the
catalog rows that inherit an identifier from this shard. -/
def shardTargets (p1 : List Pos) (shard : List SourceRow) : List Nat :=
  (matchListsB p1 (shard.map rowPos)).filterMap id

/-- The catalog indices targeted by the shard of pixel `p` (empty when the
shard does not exist). -/
def shardTargetsOf (shards : Nat → Option (List SourceRow)) (p1 : List Pos)
    (p : Nat) : List Nat :=
  match shards p with
  | some shard => shardTargets p1 shard
  | none => []

/-- The rows of the shard of pixel `p` (empty when the shard does not
exist). -/
def shardRowsOf (shards : Nat → Option (List SourceRow)) (p : Nat) :
    List SourceRow :=
  (shards p).getD []

/-- The last shard row (in shard order) whose `idx2` verdict targets catalog
index `i` — under numpy's vectorised assignment this is the row whose `HPXID`
the catalog row inherits. -/
def lastMatchRow (p1 : List Pos) (shard : List SourceRow) (i : Nat) :
    Option SourceRow :=
  (((matchListsB p1 (shard.map rowPos)).zip shard).reverse.find?
    (fun pr => pr.1 = some i)).map (fun pr => pr.2)

/-- `lastMatchRow` against the shard of pixel `p`. -/
def lastMatchRowOf (shards : Nat → Option (List SourceRow)) (p1 : List Pos)
    (p : Nat) (i : Nat) : Option SourceRow :=
  match shards p with
  | some shard => lastMatchRow p1 shard i
  | none => none

/-- Among the catalog indices before `i`, those of pixel `p` that no row of
pixel `p`'s shard matched: the sources that receive a new sequential
identifier before row `i` does. -/
def newRank (shards : Nat → Option (List SourceRow)) (p1 : List Pos)
    (cat : List SourceRow) (p : Nat) (i : Nat) : Nat :=
  (List.range i).countP (fun t =>
    match cat.get? t with
    | some r => decide (r.HEALPIX = p) && !(decide (t ∈ shardTargetsOf shards p1 p))
    | none => false)

/-!
## Supporting lemmas for the identifier-assignment phase
-/

/-- Generic `get?`/`map` commutation. -/
theorem get?_map {α β : Type} (f : α → β) (l : List α) (i : Nat) :
    (l.map f).get? i = (l.get? i).map f := by
  induction l generalizing i with
  | nil => cases i <;> rfl
  | cons a as ih => cases i with
    | zero => rfl
    | succ n => exact ih n

/-- A row with its identifier blanked: identifier assignment changes nothing
else about a row. -/
def sansId (r : SourceRow) : SourceRow := { r with HPXID := 0 }

theorem sansId_modifyIdx (f : SourceRow → SourceRow)
    (hf : ∀ r, sansId (f r) = sansId r) (i : Nat) (l : List SourceRow) :
    (modifyIdx f i l).map sansId = l.map sansId := by
  induction l generalizing i with
  | nil => cases i <;> rfl
  | cons r rs ih =>
    cases i with
    | zero => simp [modifyIdx, hf r]
    | succ n => simp [modifyIdx, ih n]

theorem sansId_applyPair (c : List SourceRow) (pr : Option Nat × SourceRow) :
    (applyPair c pr).map sansId = c.map sansId := by
  cases pr with
  | mk v r =>
    cases v with
    | none => rfl
    | some i =>
      simpa [applyPair] using
        sansId_modifyIdx (fun q => { q with HPXID := r.HPXID }) (fun q => rfl) i c

theorem sansId_foldl_applyPair (pairs : List (Option Nat × SourceRow))
    (c : List SourceRow) :
    (pairs.foldl applyPair c).map sansId = c.map sansId := by
  induction pairs generalizing c with
  | nil => rfl
  | cons pr rest ih => simpa [List.foldl_cons, sansId_applyPair] using ih (applyPair c pr)

theorem sansId_assignSeqAux (pix n : Nat) (l : List SourceRow) :
    (assignSeqAux pix n l).map sansId = l.map sansId := by
  induction l generalizing n with
  | nil => rfl
  | cons r rs ih =>
    by_cases h : r.HPXID < 0 ∧ r.HEALPIX = pix
    · simp [assignSeqAux, h, sansId, ih]
    · simp [assignSeqAux, h, ih]

theorem sansId_assignPixel (shards : Nat → Option (List SourceRow)) (p1 : List Pos)
    (pix : Nat) (c : List SourceRow) :
    (assignPixel shards p1 pix c).map sansId = c.map sansId := by
  cases h : shards pix with
  | none => simp [assignPixel, h, sansId_assignSeqAux]
  | some shard =>
    simp [assignPixel, h, sansId_assignSeqAux, applyShardMatches, sansId_foldl_applyPair]

theorem sansId_foldl_assignPixel (shards : Nat → Option (List SourceRow))
    (p1 : List Pos) (pixels : List Nat) (c : List SourceRow) :
    (pixels.foldl (fun c pix => assignPixel shards p1 pix c) c).map sansId
      = c.map sansId := by
  induction pixels generalizing c with
  | nil => rfl
  | cons p ps ih =>
    simpa [List.foldl_cons, sansId_assignPixel] using ih (assignPixel shards p1 p c)

/-- Identifier assignment changes only the `HPXID` column. -/
theorem sansId_assignAll (shards : Nat → Option (List SourceRow))
    (cat : List SourceRow) :
    (assignAll shards cat).map sansId = cat.map sansId := by
  have hinit : (initHpx cat).map sansId = cat.map sansId := by
    simp [initHpx, sansId, Function.comp]
  rw [assignAll]
  rw [sansId_foldl_assignPixel]
  exact hinit

/-- The boolean condition of lines 119-120: `HPXID < 0` and `HEALPIX == pix`. -/
def unassignedIn (pix : Nat) (r : SourceRow) : Bool :=
  decide (r.HPXID < 0 ∧ r.HEALPIX = pix)

/-- Pointwise description of the vectorised identifier hand-off: each catalog
index receives the `HPXID` of the last shard row whose verdict targets it. -/
theorem foldl_applyPair_get? (pairs : List (Option Nat × SourceRow))
    (c : List SourceRow) (i : Nat) :
    (pairs.foldl applyPair c).get? i =
      match pairs.reverse.find? (fun pr => pr.1 = some i) with
      | some pr => (c.get? i).map (fun r => { r with HPXID := pr.2.HPXID })
      | none => c.get? i := by
  induction pairs using List.reverseRecOn generalizing c with
  | nil => rfl
  | append_singleton l pr ih =>
    rw [List.foldl_append]
    rcases pr with ⟨v, row⟩
    cases v with
    | none =>
      simp only [List.foldl_cons, List.foldl_nil, applyPair]
      rw [ih]
      simp
    | some j =>
      by_cases hj : j = i
      · subst hj
        simp only [List.foldl_cons, List.foldl_nil, applyPair]
        rw [get?_modifyIdx_self, ih]
        cases hfind : l.reverse.find? (fun pr => pr.1 = some j) with
        | none => simp [hfind]
        | some pr' =>
          simp only [hfind, List.reverse_append, List.reverse_cons, List.reverse_nil,
            List.nil_append, List.find?]
          cases hc : c.get? j <;> simp
      · simp only [List.foldl_cons, List.foldl_nil, applyPair]
        rw [get?_modifyIdx_ne _ _ _ _ hj, ih]
        have hne : ¬ ((some j : Option Nat) = some i) := by
          intro h; exact hj (Option.some.injEq j i ▸ h)
        simp only [List.reverse_append, List.reverse_cons, List.reverse_nil,
          List.nil_append, List.find?]
        simp [hne]

/-- Pointwise description of the sequential assignment of lines 118-121: the
`k`-th still-unassigned row of the pixel receives `n + k`. -/
theorem assignSeqAux_get? (pix n : Nat) (l : List SourceRow) (i : Nat) :
    (assignSeqAux pix n l).get? i =
      (l.get? i).map (fun r =>
        if r.HPXID < 0 ∧ r.HEALPIX = pix then
          { r with HPXID := ((n + (l.take i).countP (unassignedIn pix) : Nat) : Int) }
        else r) := by
  induction l generalizing n i with
  | nil => cases i <;> rfl
  | cons r rs ih =>
    by_cases hr : r.HPXID < 0 ∧ r.HEALPIX = pix
    · cases i with
      | zero => simp [assignSeqAux, hr]
      | succ m =>
        simp only [assignSeqAux, hr, if_pos, List.get?, List.take, List.countP_cons,
          unassignedIn]
        rw [ih (n + 1) m]
        cases hx : rs.get? m with
        | none => simp
        | some rx =>
          by_cases hrx : rx.HPXID < 0 ∧ rx.HEALPIX = pix
          · have h2 : (n + 1) + (rs.take m).countP (unassignedIn pix)
                = n + ((rs.take m).countP (unassignedIn pix) + 1) := by omega
            simp [hrx, unassignedIn, hr, h2]
          · simp [hrx]
    · cases i with
      | zero => simp [assignSeqAux, hr]
      | succ m =>
        simp only [assignSeqAux, hr, if_neg, List.get?, List.take, List.countP_cons,
          unassignedIn]
        rw [ih n m]
        simp [hr, unassignedIn]

theorem mem_insertSorted (m n : Nat) (l : List Nat) :
    m ∈ insertSorted n l ↔ m = n ∨ m ∈ l := by
  induction l with
  | nil => simp [insertSorted]
  | cons a as ih =>
    by_cases h1 : n < a
    · rw [insertSorted, if_pos h1]
      simp [List.mem_cons]
    · by_cases h2 : n = a
      · rw [insertSorted, if_neg h1, if_pos h2]
        subst h2
        simp [List.mem_cons]
      · rw [insertSorted, if_neg h1, if_neg h2]
        simp only [List.mem_cons, ih]
        tauto

theorem pairwise_insertSorted (n : Nat) (l : List Nat)
    (h : l.Pairwise (· < ·)) : (insertSorted n l).Pairwise (· < ·) := by
  induction l with
  | nil => simp [insertSorted]
  | cons a as ih =>
    rcases List.pairwise_cons.mp h with ⟨ha, has⟩
    by_cases h1 : n < a
    · rw [insertSorted, if_pos h1]
      refine List.pairwise_cons.mpr ⟨?_, h⟩
      intro b hb
      rcases List.mem_cons.mp hb with hb | hb
      · exact hb ▸ h1
      · exact lt_trans h1 (ha b hb)
    · by_cases h2 : n = a
      · rw [insertSorted, if_neg h1, if_pos h2]
        exact h
      · rw [insertSorted, if_neg h1, if_neg h2]
        have hna : a < n := by omega
        refine List.pairwise_cons.mpr ⟨?_, ih has⟩
        intro b hb
        rcases (mem_insertSorted b n as).mp hb with hb | hb
        · exact hb ▸ hna
        · exact ha b hb

theorem uniquePixels_pairwise (cat : List SourceRow) :
    (uniquePixels cat).Pairwise (· < ·) := by
  rw [uniquePixels]
  generalize cat.map (fun r => r.HEALPIX) = xs
  induction xs with
  | nil => simp
  | cons x xs ih => exact pairwise_insertSorted x _ ih

theorem uniquePixels_nodup (cat : List SourceRow) : (uniquePixels cat).Nodup :=
  (uniquePixels_pairwise cat).imp ne_of_lt

theorem mem_uniquePixels (p : Nat) (cat : List SourceRow) :
    p ∈ uniquePixels cat ↔ p ∈ cat.map (fun r => r.HEALPIX) := by
  rw [uniquePixels]
  generalize cat.map (fun r => r.HEALPIX) = xs
  induction xs with
  | nil => simp
  | cons x xs ih => simp [mem_insertSorted, ih]

/-- Zipping a mapped list with its source pairs each element with its image. -/
theorem zip_map_self {α β : Type} (f : α → β) (l : List α) :
    (l.map f).zip l = l.map (fun a => (f a, a)) := by
  induction l with
  | nil => rfl
  | cons a as ih => simp [ih]

/-- The `idx2`/shard-row pair list that drives the vectorised hand-off, in
closed form. -/
theorem pairs_eq_map (p1 : List Pos) (shard : List SourceRow) :
    (matchListsB p1 (shard.map rowPos)).zip shard
      = shard.map (fun r => (bestMatch (rowPos r) p1, r)) := by
  rw [matchListsB, List.map_map]
  exact zip_map_self _ shard

/-- A catalog index is a target of a shard exactly when some shard row's
verdict names it, i.e. when a last matching shard row exists. -/
theorem mem_shardTargets_iff (p1 : List Pos) (shard : List SourceRow) (i : Nat) :
    i ∈ shardTargets p1 shard ↔ (lastMatchRow p1 shard i).isSome := by
  rw [shardTargets, lastMatchRow, pairs_eq_map, Option.isSome_map']
  rw [List.find?_isSome, matchListsB, List.map_map]
  constructor
  · intro h
    rcases List.mem_filterMap.mp h with ⟨o, ho, hoi⟩
    rcases List.mem_map.mp ho with ⟨r, hr, hro⟩
    have ho2 : o = some i := by simpa using hoi
    have hbm : bestMatch (rowPos r) p1 = some i := by
      rw [← ho2, ← hro]
      rfl
    refine ⟨(bestMatch (rowPos r) p1, r), ?_, ?_⟩
    · rw [List.mem_reverse]
      exact List.mem_map.mpr ⟨r, hr, rfl⟩
    · simpa using hbm
  · rintro ⟨pr, hpr, hpri⟩
    rw [List.mem_reverse] at hpr
    rcases List.mem_map.mp hpr with ⟨r, hr, hrpr⟩
    refine List.mem_filterMap.mpr ⟨bestMatch (rowPos r) p1, List.mem_map.mpr ⟨r, hr, rfl⟩, ?_⟩
    have : pr.1 = some i := by simpa using hpri
    rw [← hrpr] at this
    simpa using this

/-- The row delivered by `lastMatchRow` is a row of the shard. -/
theorem lastMatchRow_mem (p1 : List Pos) (shard : List SourceRow) (i : Nat)
    (rm : SourceRow) (h : lastMatchRow p1 shard i = some rm) : rm ∈ shard := by
  rw [lastMatchRow, pairs_eq_map] at h
  cases hf : (shard.map (fun r => (bestMatch (rowPos r) p1, r))).reverse.find?
      (fun pr => pr.1 = some i) with
  | none => rw [hf] at h; exact absurd h (by simp)
  | some pr =>
    rw [hf] at h
    have hpr : pr ∈ (shard.map (fun r => (bestMatch (rowPos r) p1, r))).reverse :=
      List.mem_of_find?_eq_some hf
    rw [List.mem_reverse] at hpr
    rcases List.mem_map.mp hpr with ⟨r, hr, hrpr⟩
    have : rm = r := by
      have h2 : pr.2 = rm := by simpa using h
      rw [← h2, ← hrpr]
    exact this ▸ hr

/-- Pointwise description of the whole vectorised hand-off of line 113. -/
theorem applyShardMatches_get? (p1 : List Pos) (shard : List SourceRow)
    (c : List SourceRow) (i : Nat) :
    (applyShardMatches p1 shard c).get? i =
      match lastMatchRow p1 shard i with
      | some rm => (c.get? i).map (fun r => { r with HPXID := rm.HPXID })
      | none => c.get? i := by
  rw [applyShardMatches, foldl_applyPair_get?, lastMatchRow]
  cases hf : ((matchListsB p1 (shard.map rowPos)).zip shard).reverse.find?
      (fun pr => pr.1 = some i) with
  | none => simp
  | some pr => simp

/-- The per-pixel loop body in uniform form: an absent shard behaves exactly
like an empty one (`hpx_cat_len = 0`, no identifier hand-off). -/
theorem assignPixel_eq (shards : Nat → Option (List SourceRow)) (p1 : List Pos)
    (pix : Nat) (c : List SourceRow) :
    assignPixel shards p1 pix c
      = assignSeqAux pix (shardRowsOf shards pix).length
          (applyShardMatches p1 (shardRowsOf shards pix) c) := by
  cases hs : shards pix with
  | none => simp [assignPixel, shardRowsOf, hs, applyShardMatches, matchListsB]
  | some shard => simp [assignPixel, shardRowsOf, hs]

theorem shardTargetsOf_eq (shards : Nat → Option (List SourceRow)) (p1 : List Pos)
    (p : Nat) : shardTargetsOf shards p1 p = shardTargets p1 (shardRowsOf shards p) := by
  cases hs : shards p with
  | none => simp [shardTargetsOf, shardRowsOf, hs, shardTargets, matchListsB]
  | some shard => simp [shardTargetsOf, shardRowsOf, hs]

theorem lastMatchRowOf_eq (shards : Nat → Option (List SourceRow)) (p1 : List Pos)
    (p i : Nat) : lastMatchRowOf shards p1 p i = lastMatchRow p1 (shardRowsOf shards p) i := by
  cases hs : shards p with
  | none => simp [lastMatchRowOf, shardRowsOf, hs, lastMatchRow, matchListsB]
  | some shard => simp [lastMatchRowOf, shardRowsOf, hs]

theorem length_eq_of_map_sansId {c c' : List SourceRow}
    (h : c.map sansId = c'.map sansId) : c.length = c'.length := by
  have h2 := congrArg List.length h
  simpa using h2

theorem healpix_eq_of_map_sansId {c c' : List SourceRow}
    (h : c.map sansId = c'.map sansId) (t : Nat) (r r' : SourceRow)
    (hr : c.get? t = some r) (hr' : c'.get? t = some r') :
    r.HEALPIX = r'.HEALPIX := by
  have h2 : (c.get? t).map sansId = (c'.get? t).map sansId := by
    rw [← get?_map, ← get?_map, h]
  rw [hr, hr'] at h2
  have h3 : sansId r = sansId r' := by simpa using h2
  have h4 := congrArg SourceRow.HEALPIX h3
  exact h4

/-- A row whose pixel a loop iteration does not own, and which no shard row of
that iteration targets, passes through the iteration unchanged. -/
theorem assignPixel_get?_untouched (shards : Nat → Option (List SourceRow))
    (p1 : List Pos) (q : Nat) (c : List SourceRow) (i : Nat) (r : SourceRow)
    (hc : c.get? i = some r) (hne : r.HEALPIX ≠ q)
    (ht : i ∉ shardTargetsOf shards p1 q) :
    (assignPixel shards p1 q c).get? i = some r := by
  rw [assignPixel_eq]
  rw [shardTargetsOf_eq] at ht
  have hlm : lastMatchRow p1 (shardRowsOf shards q) i = none := by
    cases hl : lastMatchRow p1 (shardRowsOf shards q) i with
    | none => rfl
    | some rm =>
      exact absurd ((mem_shardTargets_iff p1 _ i).mpr (by rw [hl]; rfl)) ht
  rw [assignSeqAux_get?, applyShardMatches_get?, hlm, hc]
  simp [hne]

/-- A row untouched by every iteration of a pixel-list fold. -/
theorem foldl_assignPixel_untouched (shards : Nat → Option (List SourceRow))
    (p1 : List Pos) (pixels : List Nat) (c : List SourceRow) (i : Nat)
    (r : SourceRow) (hc : c.get? i = some r)
    (h : ∀ q ∈ pixels, r.HEALPIX ≠ q ∧ i ∉ shardTargetsOf shards p1 q) :
    ((pixels.foldl (fun c pix => assignPixel shards p1 pix c) c).get? i) = some r := by
  induction pixels generalizing c with
  | nil => exact hc
  | cons q ps ih =>
    rcases h q (List.mem_cons_self q ps) with ⟨hne, ht⟩
    rw [List.foldl_cons]
    exact ih (assignPixel shards p1 q c)
      (assignPixel_get?_untouched shards p1 q c i r hc hne ht)
      (fun q' hq' => h q' (List.mem_cons_of_mem q hq'))

/-- Counting a pointwise property over a prefix equals counting the matching
index property over `range`. -/
theorem countP_take_eq_range {α : Type} (l : List α) (q : α → Bool) (P : Nat → Bool)
    (i : Nat) (hi : i ≤ l.length)
    (h : ∀ t r, t < i → l.get? t = some r → q r = P t) :
    (l.take i).countP q = (List.range i).countP P := by
  induction l generalizing i P with
  | nil =>
    cases i with
    | zero => rfl
    | succ m => exact absurd hi (by simp)
  | cons a as ih =>
    cases i with
    | zero => rfl
    | succ m =>
      have h0 : q a = P 0 := h 0 a (Nat.succ_pos m) rfl
      have hrec : (as.take m).countP q = (List.range m).countP (fun t => P (t + 1)) := by
        refine ih (fun t => P (t + 1)) m (by simpa using hi) ?_
        intro t r ht hr
        exact h (t + 1) r (Nat.succ_lt_succ ht) hr
      have hcomp : P ∘ Nat.succ = fun t => P (t + 1) := rfl
      rw [List.take_succ_cons, List.countP_cons, hrec, List.range_succ_eq_map,
        List.countP_cons, List.countP_map, hcomp]
      simp only [h0]

/-- **C4 (amended).** Identifier assignment matches the full catalog position
list against every touched pixel's shard.  Provided each shard row's match (if
any) is a source of that shard's own pixel, and stored shard identifiers are
non-negative, then: a source targeted by rows of its pixel's shard inherits
the `HPXID` of the last such matching shard row, and a source not targeted by
its pixel's shard receives a sequential `HPXID` starting at the row count the
shard had when read (0 when the shard does not exist), incrementing by one per
newly assigned source of that pixel in catalog order. -/
theorem C4_assign_identifiers
    (shards : Nat → Option (List SourceRow)) (cat : List SourceRow) (i : Nat)
    (ri : SourceRow) (hi : cat.get? i = some ri)
    (Hlocal : ∀ q ∈ uniquePixels cat, ∀ t ∈ shardTargetsOf shards (cat.map rowPos) q,
      (cat.get? t).map (fun r => r.HEALPIX) = some q)
    (Hnonneg : ∀ q ∈ uniquePixels cat, ∀ r ∈ shardRowsOf shards q, 0 ≤ r.HPXID) :
    (i ∈ shardTargetsOf shards (cat.map rowPos) ri.HEALPIX →
      ∃ rm, lastMatchRowOf shards (cat.map rowPos) ri.HEALPIX i = some rm ∧
        (assignAll shards cat).get? i = some { ri with HPXID := rm.HPXID })
    ∧ (i ∉ shardTargetsOf shards (cat.map rowPos) ri.HEALPIX →
      (assignAll shards cat).get? i = some { ri with HPXID :=
        (((shardRowsOf shards ri.HEALPIX).length
          + newRank shards (cat.map rowPos) cat ri.HEALPIX i : Nat) : Int) }) := by
  have hri_mem : ri ∈ cat := List.get?_mem hi
  have hpmem : ri.HEALPIX ∈ uniquePixels cat :=
    (mem_uniquePixels ri.HEALPIX cat).mpr (List.mem_map.mpr ⟨ri, hri_mem, rfl⟩)
  obtain ⟨before, after, hsplit⟩ := List.append_of_mem hpmem
  have hnd : (uniquePixels cat).Nodup := uniquePixels_nodup cat
  rw [hsplit] at hnd
  rcases List.nodup_append.mp hnd with ⟨hnd1, hnd2, hdisj⟩
  have hnb : ri.HEALPIX ∉ before :=
    fun hb => hdisj hb (List.mem_cons_self ri.HEALPIX after)
  have hna : ri.HEALPIX ∉ after := (List.nodup_cons.mp hnd2).1
  have hassign : assignAll shards cat
      = after.foldl (fun c pix => assignPixel shards (cat.map rowPos) pix c)
          (assignPixel shards (cat.map rowPos) ri.HEALPIX
            (before.foldl (fun c pix => assignPixel shards (cat.map rowPos) pix c)
              (initHpx cat))) := by
    rw [assignAll, hsplit, List.foldl_append, List.foldl_cons]
  have hshape_init : (initHpx cat).map sansId = cat.map sansId := by
    simp [initHpx, sansId, Function.comp]
  have hshape1 :
      (before.foldl (fun c pix => assignPixel shards (cat.map rowPos) pix c)
        (initHpx cat)).map sansId = cat.map sansId := by
    rw [sansId_foldl_assignPixel]
    exact hshape_init
  -- every pixel-`ri.HEALPIX` row survives the `before` iterations untouched
  have hrow1 : ∀ t rt, cat.get? t = some rt → rt.HEALPIX = ri.HEALPIX →
      (before.foldl (fun c pix => assignPixel shards (cat.map rowPos) pix c)
        (initHpx cat)).get? t = some { rt with HPXID := -1 } := by
    intro t rt hcat hhp
    have h0 : (initHpx cat).get? t = some { rt with HPXID := -1 } := by
      rw [initHpx, get?_map, hcat]
      rfl
    refine foldl_assignPixel_untouched shards (cat.map rowPos) before (initHpx cat)
      t _ h0 ?_
    intro q hq
    have hqU : q ∈ uniquePixels cat := by
      rw [hsplit]
      exact List.mem_append.mpr (Or.inl hq)
    have hqp : q ≠ ri.HEALPIX := fun hqp => hnb (hqp ▸ hq)
    constructor
    · show rt.HEALPIX ≠ q
      rw [hhp]
      exact Ne.symm hqp
    · intro htq
      have h2 := Hlocal q hqU t htq
      rw [hcat] at h2
      have h3 : rt.HEALPIX = q := by simpa using h2
      exact hqp (h3.symm.trans hhp)
  have hrow1i :
      (before.foldl (fun c pix => assignPixel shards (cat.map rowPos) pix c)
        (initHpx cat)).get? i = some { ri with HPXID := -1 } :=
    hrow1 i ri hi rfl
  have hshape_mid :
      (applyShardMatches (cat.map rowPos) (shardRowsOf shards ri.HEALPIX)
        (before.foldl (fun c pix => assignPixel shards (cat.map rowPos) pix c)
          (initHpx cat))).map sansId = cat.map sansId := by
    rw [applyShardMatches, sansId_foldl_applyPair]
    exact hshape1
  have hlenmid :
      (applyShardMatches (cat.map rowPos) (shardRowsOf shards ri.HEALPIX)
        (before.foldl (fun c pix => assignPixel shards (cat.map rowPos) pix c)
          (initHpx cat))).length = cat.length := length_eq_of_map_sansId hshape_mid
  have hilen : i < cat.length := by
    by_contra hcon
    push_neg at hcon
    rw [List.get?_eq_none.mpr hcon] at hi
    exact Option.noConfusion hi
  -- the `after` iterations leave row `i` untouched once its pixel is done
  have hafter : ∀ v : Int,
      (assignPixel shards (cat.map rowPos) ri.HEALPIX
        (before.foldl (fun c pix => assignPixel shards (cat.map rowPos) pix c)
          (initHpx cat))).get? i = some { ri with HPXID := v } →
      (assignAll shards cat).get? i = some { ri with HPXID := v } := by
    intro v hv
    rw [hassign]
    refine foldl_assignPixel_untouched shards (cat.map rowPos) after _ i _ hv ?_
    intro q hq
    have hqU : q ∈ uniquePixels cat := by
      rw [hsplit]
      exact List.mem_append.mpr (Or.inr (List.mem_cons_of_mem ri.HEALPIX hq))
    have hqp : q ≠ ri.HEALPIX := fun h => hna (h ▸ hq)
    constructor
    · show ri.HEALPIX ≠ q
      exact Ne.symm hqp
    · intro htq
      have h2 := Hlocal q hqU i htq
      rw [hi] at h2
      have h3 : ri.HEALPIX = q := by simpa using h2
      exact hqp h3.symm
  constructor
  · -- matched branch
    intro hT
    rw [shardTargetsOf_eq] at hT
    have hsome : (lastMatchRow (cat.map rowPos) (shardRowsOf shards ri.HEALPIX) i).isSome :=
      (mem_shardTargets_iff _ _ i).mp hT
    obtain ⟨rm, hrm⟩ := Option.isSome_iff_exists.mp hsome
    refine ⟨rm, by rw [lastMatchRowOf_eq]; exact hrm, ?_⟩
    have hmid_i :
        (applyShardMatches (cat.map rowPos) (shardRowsOf shards ri.HEALPIX)
          (before.foldl (fun c pix => assignPixel shards (cat.map rowPos) pix c)
            (initHpx cat))).get? i = some { ri with HPXID := rm.HPXID } := by
      rw [applyShardMatches_get?, hrm, hrow1i]
      rfl
    have hnn : 0 ≤ rm.HPXID :=
      Hnonneg ri.HEALPIX hpmem rm (lastMatchRow_mem _ _ i rm hrm)
    apply hafter
    rw [assignPixel_eq, assignSeqAux_get?, hmid_i]
    have hcnot : ¬ rm.HPXID < 0 := not_lt.mpr hnn
    simp [hcnot]
  · -- unmatched branch
    intro hT
    rw [shardTargetsOf_eq] at hT
    have hnone : lastMatchRow (cat.map rowPos) (shardRowsOf shards ri.HEALPIX) i = none := by
      cases hl : lastMatchRow (cat.map rowPos) (shardRowsOf shards ri.HEALPIX) i with
      | none => rfl
      | some rm =>
        exact absurd ((mem_shardTargets_iff _ _ i).mpr (by rw [hl]; rfl)) hT
    have hmid_i :
        (applyShardMatches (cat.map rowPos) (shardRowsOf shards ri.HEALPIX)
          (before.foldl (fun c pix => assignPixel shards (cat.map rowPos) pix c)
            (initHpx cat))).get? i = some { ri with HPXID := -1 } := by
      rw [applyShardMatches_get?, hnone]
      exact hrow1i
    have hcount :
        ((applyShardMatches (cat.map rowPos) (shardRowsOf shards ri.HEALPIX)
          (before.foldl (fun c pix => assignPixel shards (cat.map rowPos) pix c)
            (initHpx cat))).take i).countP (unassignedIn ri.HEALPIX)
          = newRank shards (cat.map rowPos) cat ri.HEALPIX i := by
      rw [newRank]
      refine countP_take_eq_range _ (unassignedIn ri.HEALPIX) _ i (by omega) ?_
      intro t r' ht hmt
      have htlen : t < cat.length := lt_trans ht hilen
      obtain ⟨rt, hrt⟩ : ∃ rt, cat.get? t = some rt := by
        cases hx : cat.get? t with
        | none =>
          rw [List.get?_eq_none] at hx
          omega
        | some rt => exact ⟨rt, rfl⟩
      rw [hrt]
      by_cases hhp : rt.HEALPIX = ri.HEALPIX
      · by_cases htT : t ∈ shardTargets (cat.map rowPos) (shardRowsOf shards ri.HEALPIX)
        · have hsomet :
              (lastMatchRow (cat.map rowPos) (shardRowsOf shards ri.HEALPIX) t).isSome :=
            (mem_shardTargets_iff _ _ t).mp htT
          obtain ⟨rmt, hrmt⟩ := Option.isSome_iff_exists.mp hsomet
          have hmid_t :
              (applyShardMatches (cat.map rowPos) (shardRowsOf shards ri.HEALPIX)
                (before.foldl (fun c pix => assignPixel shards (cat.map rowPos) pix c)
                  (initHpx cat))).get? t = some { rt with HPXID := rmt.HPXID } := by
            rw [applyShardMatches_get?, hrmt, hrow1 t rt hrt hhp]
            rfl
          have hr' : r' = { rt with HPXID := rmt.HPXID } := by
            have h5 := hmid_t.symm.trans hmt
            exact (Option.some.inj h5).symm
          have hnnt : 0 ≤ rmt.HPXID :=
            Hnonneg ri.HEALPIX hpmem rmt (lastMatchRow_mem _ _ t rmt hrmt)
          have htT2 : t ∈ shardTargetsOf shards (cat.map rowPos) ri.HEALPIX := by
            rw [shardTargetsOf_eq]
            exact htT
          simp [unassignedIn, hr', htT2, not_lt.mpr hnnt]
        · have hnonet :
              lastMatchRow (cat.map rowPos) (shardRowsOf shards ri.HEALPIX) t = none := by
            cases hl : lastMatchRow (cat.map rowPos) (shardRowsOf shards ri.HEALPIX) t with
            | none => rfl
            | some rmt =>
              exact absurd ((mem_shardTargets_iff _ _ t).mpr (by rw [hl]; rfl)) htT
          have hmid_t :
              (applyShardMatches (cat.map rowPos) (shardRowsOf shards ri.HEALPIX)
                (before.foldl (fun c pix => assignPixel shards (cat.map rowPos) pix c)
                  (initHpx cat))).get? t = some { rt with HPXID := -1 } := by
            rw [applyShardMatches_get?, hnonet]
            exact hrow1 t rt hrt hhp
          have hr' : r' = { rt with HPXID := -1 } := by
            have h5 := hmid_t.symm.trans hmt
            exact (Option.some.inj h5).symm
          have htT2 : t ∉ shardTargetsOf shards (cat.map rowPos) ri.HEALPIX := by
            rw [shardTargetsOf_eq]
            exact htT
          simp [unassignedIn, hr', htT2, hhp]
      · have hhp' : r'.HEALPIX = rt.HEALPIX :=
          healpix_eq_of_map_sansId hshape_mid t r' rt hmt hrt
        simp [unassignedIn, hhp', hhp]
    apply hafter
    rw [assignPixel_eq, assignSeqAux_get?, hmid_i]
    norm_num [hcount]

/-!
## Concrete instances for the identifier-assignment claims

Fixed-point positions: `9000` units is `0.45` arcseconds, inside the `0.5`
arcsecond tolerance (`10000` units).
-/

/-- A two-source catalog: source 0 in pixel 1 at the origin, source 1 in
pixel 2, `0.45` arcseconds east of the origin (a pixel-border pair). -/
def catC4 : List SourceRow :=
  [⟨0, 0, 1, -1, 0, 0, "e1", 0⟩, ⟨9000, 0, 2, -1, 0, 0, "e1", 0⟩]

/-- The single accumulated row of pixel 1's shard: it sits at source 1's
position (the source drifted across the pixel border between runs) and
carries the persistent identifier 5. -/
def shardRowC4 : SourceRow := ⟨9000, 0, 1, 5, 0, 0, "old", 0⟩

/-- Shard storage holding only pixel 1's shard; pixel 2 has none. -/
def shardsC4 : Nat → Option (List SourceRow) :=
  fun p => if p = 1 then some [shardRowC4] else none

/-- **C4 (counterexample).** Source 1 lives in pixel 2, whose shard does not
exist, so it is matched to no row of its own pixel's shard and the claim
demands the sequential identifier `0` (the shard row count `0` plus rank `0`,
which is exactly `(shardRowsOf shardsC4 2).length + newRank ... 2 1`).  The
code instead matches it against pixel 1's shard (the matching always uses the
full catalog) and hands it that shard row's identifier 5. -/
theorem C4_counterexample :
    (assignAll shardsC4 catC4).map (fun r => r.HPXID) = [1, 5]
    ∧ shardsC4 2 = none
    ∧ catC4.map (fun r => r.HEALPIX) = [1, 2]
    ∧ shardTargetsOf shardsC4 (catC4.map rowPos) 2 = []
    ∧ ((assignAll shardsC4 catC4).get? 1).map (fun r => r.HPXID)
        ≠ some (((shardRowsOf shardsC4 2).length
          + newRank shardsC4 (catC4.map rowPos) catC4 2 1 : Nat) : Int) := by
  decide

/-- A one-source catalog in pixel 3, at the origin. -/
def catC4w : List SourceRow := [⟨0, 0, 3, -1, 0, 0, "w1", 0⟩]

/-- The first row of `catC4w`, spelled out. -/
def rowC4w : SourceRow := ⟨0, 0, 3, -1, 0, 0, "w1", 0⟩

/-- Pixel 3's shard: one row at the origin with identifier 4. -/
def shardRowC4w : SourceRow := ⟨0, 0, 3, 4, 0, 0, "old", 0⟩

/-- Shard storage for the witness scenario. -/
def shardsC4w : Nat → Option (List SourceRow) :=
  fun p => if p = 3 then some [shardRowC4w] else none

/-- **C4 (witness).** On the concrete one-source catalog the amended theorem
applies (the pixel-locality and non-negativity hypotheses hold by
computation) and delivers the inherited identifier 4. -/
theorem C4_witness :
    ((assignAll shardsC4w catC4w).get? 0).map (fun r => r.HPXID) = some 4 := by
  obtain ⟨rm, hrm, hres⟩ :=
    (C4_assign_identifiers shardsC4w catC4w 0 rowC4w rfl (by decide) (by decide)).1
      (by decide)
  rw [hres]
  have hlast : lastMatchRowOf shardsC4w (catC4w.map rowPos) rowC4w.HEALPIX 0
      = some shardRowC4w := rfl
  rw [hlast] at hrm
  have h2 := Option.some.inj hrm
  simp [← h2]
  rfl

/-!
## Shard merge and persistence (`split_to_hpx`, lines 60-81)

`split_to_hpx` stamps the whole catalog with the dataset name
(`"{dataset_name}{version}{ccd}"`) and with
`mid_mjdate = MJDATE + EXPTIME/24./3600.0` (lines 62-65), then for each
distinct `HEALPIX` value loads the pixel's shard, drops the rows of this
dataset, appends the catalog's rows of this pixel, and writes the shard back
(lines 67-81).  On `ENOENT` the shard starts from just this pixel's rows.
-/

/-- Line 65: the epoch stamped on every row, `MJDATE + EXPTIME/24./3600.0`
(start of exposure plus the full exposure duration converted to days). -/
def midMJD (mjdate exptime : ℚ) : ℚ := mjdate + exptime / 24 / 3600

/-- Lines 64-65: overwrite the `dataset_name` and `mid_mjdate` columns of the
whole catalog. -/
def stampColumns (dataset : String) (mid : ℚ) (cat : List SourceRow) : List SourceRow :=
  cat.map (fun r => { r with dataset_name := dataset, mid_mjdate := mid })

/-- Lines 71-72: drop the shard's rows of this dataset, then append the new
rows (`vstack`). -/
def mergeShard (shard : List SourceRow) (dataset : String)
    (newRows : List SourceRow) : List SourceRow :=
  shard.filter (fun r => r.dataset_name ≠ dataset) ++ newRows

/-- The number of shard rows attributable to a dataset. -/
def countDataset (d : String) (l : List SourceRow) : Nat :=
  (l.filter (fun r => r.dataset_name = d)).length

/-- `n + 1` successive merges of the same rows into the same shard. -/
def repeatMerge (shard : List SourceRow) (d : String) (rows : List SourceRow) :
    Nat → List SourceRow
  | 0 => mergeShard shard d rows
  | n + 1 => mergeShard (repeatMerge shard d rows n) d rows

/-- Lines 67-81 as a storage effect trace: the list of `(pixel, contents)`
pairs written and `put`, one per distinct `HEALPIX` value of the catalog; an
existing shard is read-merge-written, an absent one (`ENOENT`) starts from
this pixel's rows alone. -/
def splitToHpx (shards : Nat → Option (List SourceRow)) (dataset : String)
    (mid : ℚ) (cat : List SourceRow) : List (Nat × List SourceRow) :=
  (uniquePixels (stampColumns dataset mid cat)).map (fun pix =>
    (pix, match shards pix with
          | some shard =>
            mergeShard shard dataset
              ((stampColumns dataset mid cat).filter (fun r => r.HEALPIX = pix))
          | none => (stampColumns dataset mid cat).filter (fun r => r.HEALPIX = pix)))

theorem filter_eq_of_filter_ne (d : String) (l : List SourceRow) :
    ((l.filter (fun r => r.dataset_name ≠ d)).filter (fun r => r.dataset_name = d)) = [] := by
  induction l with
  | nil => rfl
  | cons r rs ih =>
    by_cases h : r.dataset_name = d
    · simp [h, ih]
    · simp [h, ih]

theorem filter_ne_idem (d : String) (l : List SourceRow) :
    ((l.filter (fun r => r.dataset_name ≠ d)).filter (fun r => r.dataset_name ≠ d))
      = l.filter (fun r => r.dataset_name ≠ d) := by
  induction l with
  | nil => rfl
  | cons r rs ih =>
    by_cases h : r.dataset_name = d
    · simp [h, ih]
    · simp [h, ih]

theorem countDataset_mergeShard (shard : List SourceRow) (d : String)
    (rows : List SourceRow) :
    countDataset d (mergeShard shard d rows) = countDataset d rows := by
  rw [countDataset, mergeShard, List.filter_append, filter_eq_of_filter_ne]
  rfl

/-- **C2.** Merging first removes the shard's rows of the dataset and then
appends the new ones, so the row count attributable to the dataset is the same
after one merge as after any number of repeated merges; when the merged rows
all carry the dataset's name (as the stamped catalog rows do), repeating the
merge reproduces the shard byte for byte — idempotent re-runs, no duplicate
rows. -/
theorem C2_merge_idempotent (shard : List SourceRow) (d : String)
    (rows : List SourceRow) :
    (∀ n, countDataset d (repeatMerge shard d rows n)
      = countDataset d (mergeShard shard d rows))
    ∧ ((∀ r ∈ rows, r.dataset_name = d) →
      mergeShard (mergeShard shard d rows) d rows = mergeShard shard d rows) := by
  constructor
  · intro n
    induction n with
    | zero => rfl
    | succ m ih =>
      show countDataset d (mergeShard (repeatMerge shard d rows m) d rows) = _
      rw [countDataset_mergeShard, countDataset_mergeShard]
  · intro hall
    have hrows : rows.filter (fun r => r.dataset_name ≠ d) = [] := by
      induction rows with
      | nil => rfl
      | cons r rs ih =>
        have h1 : r.dataset_name = d := hall r (List.mem_cons_self r rs)
        have hall2 : ∀ r' ∈ rs, r'.dataset_name = d := by
          intro r' hr'
          exact hall r' (List.mem_cons_of_mem r hr')
        have h2 := ih hall2
        have hd : (decide (r.dataset_name ≠ d)) = false := by simp [h1]
        rw [List.filter_cons, hd, if_neg Bool.false_ne_true]
        exact h2
    show mergeShard (shard.filter (fun r => r.dataset_name ≠ d) ++ rows) d rows = _
    rw [mergeShard, List.filter_append, filter_ne_idem, hrows, List.append_nil]
    rfl

/-- A shard with one row of dataset `"a"` and one of dataset `"b"`. -/
def shardC2 : List SourceRow :=
  [⟨0, 0, 1, 0, 0, 0, "a", 0⟩, ⟨50000, 0, 1, 1, 0, 0, "b", 0⟩]

/-- Two re-processed rows of dataset `"a"`. -/
def rowsC2 : List SourceRow :=
  [⟨0, 0, 1, 0, 2, 3, "a", 0⟩, ⟨20000, 0, 1, 2, 1, 2, "a", 0⟩]

/-- **C2 (witness).** On a concrete shard, five repeated merges leave the
dataset's row count at the single-merge value, and a second merge reproduces
the shard exactly. -/
theorem C2_witness :
    countDataset "a" (repeatMerge shardC2 "a" rowsC2 5)
      = countDataset "a" (mergeShard shardC2 "a" rowsC2)
    ∧ mergeShard (mergeShard shardC2 "a" rowsC2) "a" rowsC2
      = mergeShard shardC2 "a" rowsC2 :=
  ⟨(C2_merge_idempotent shardC2 "a" rowsC2).1 5,
    (C2_merge_idempotent shardC2 "a" rowsC2).2 (by
      intro r hr
      rcases List.mem_cons.mp hr with h | h
      · rw [h]
      · rcases List.mem_cons.mp h with h2 | h2
        · rw [h2]
        · exact absurd h2 (List.not_mem_nil r))⟩

/-- **C9.** The epoch stamped on every row this task writes into the pixel
shards is `MJDATE + EXPTIME/24./3600.0`, i.e. the exposure start plus the
*full* exposure duration in days — not the mid-exposure time the column name
`mid_mjdate` (and the claim) promise, which would add only half the duration.
For any non-zero `EXPTIME` the two differ. -/
theorem C9_epoch_full_duration (mjdate exptime : ℚ) (dataset : String)
    (cat : List SourceRow) (r : SourceRow)
    (hr : r ∈ stampColumns dataset (midMJD mjdate exptime) cat) :
    r.mid_mjdate = mjdate + exptime / 86400
    ∧ (exptime ≠ 0 → r.mid_mjdate ≠ mjdate + exptime / 2 / 86400) := by
  have hmid : r.mid_mjdate = midMJD mjdate exptime := by
    rcases List.mem_map.mp hr with ⟨r0, hr0, hr0eq⟩
    rw [← hr0eq]
  have hfull : midMJD mjdate exptime = mjdate + exptime / 86400 := by
    rw [midMJD]
    ring
  constructor
  · rw [hmid, hfull]
  · intro hne
    rw [hmid, hfull]
    intro heq
    have h2 : exptime / 86400 = exptime / 2 / 86400 := by linarith
    have h3 : exptime = exptime / 2 := by
      field_simp at h2
      linarith
    have : exptime = 0 := by linarith
    exact hne this

/-- The raw catalog row of the C9 witness scenario, before stamping. -/
def catC9 : List SourceRow := [⟨0, 0, 7, -1, 0, 0, "orig", 0⟩]

/-- The stamped row: dataset `"d9"`, epoch `midMJD 58000 120`. -/
def rowC9 : SourceRow := ⟨0, 0, 7, -1, 0, 0, "d9", midMJD 58000 120⟩

/-- **C9 (witness).** For `MJDATE = 58000` and `EXPTIME = 120` seconds the
stamped epoch is `58000 + 120/86400` (the exposure end), which differs from
the mid-exposure value `58000 + 60/86400`. -/
theorem C9_witness :
    rowC9.mid_mjdate = 58000 + 120 / 86400
    ∧ rowC9.mid_mjdate ≠ 58000 + 120 / 2 / 86400 := by
  have h := C9_epoch_full_duration 58000 120 "d9" catC9 rowC9 (List.Mem.head _)
  exact ⟨h.1, h.2 (by norm_num)⟩

/-!
## Match and overlap accumulation (`match`, lines 123-141)

Lines 123-124 zero the `MATCHES` and `OVERLAPS` columns.  For each candidate
`(exposure, ccd)` of the cone search, the candidate catalog and image are
retrieved inside a `try`: an `ENOENT` `OSError` is logged and skipped
(`continue`), any other `OSError` is re-raised.  On success, line 134
increments `MATCHES` once for every catalog row matched by some candidate row
(numpy's fancy-indexed `+= 1` counts each distinct index once), and lines
135-136 add the footprint-containment indicator to `OVERLAPS` of every row.
-/

/-- Lines 123-124: `catalog.table['MATCHES'] = 0`,
`catalog.table['OVERLAPS'] = 0`. -/
def resetCounts (c : List SourceRow) : List SourceRow :=
  c.map (fun r => { r with MATCHES := 0, OVERLAPS := 0 })

/-- A retrievable candidate: the positions of its catalog rows
(`match_catalog`) and its image footprint test
(`match_image.polygon.isInside`). -/
structure Candidate where
  rows : List Pos
  inside : Pos → Bool

/-- The outcome of retrieving one candidate of the cone-search list: found,
absent (`ENOENT`), or failing with another storage error. -/
inductive Fetch (α : Type) where
  | found : α → Fetch α
  | notFound : Fetch α
  | ioError : String → Fetch α

/-- The distinct catalog indices matched by some candidate row
(`idx2.data[~idx2.mask]`, deduplicated as numpy's fancy-indexed `+= 1`
effectively does). -/
def candTargets (p1 : List Pos) (cand : Candidate) : List Nat :=
  ((matchListsB p1 cand.rows).filterMap id).dedup

/-- Line 134: `catalog.table['MATCHES'][idx2.data[~idx2.mask]] += 1`. -/
def incrMatches (c : List SourceRow) (ts : List Nat) : List SourceRow :=
  ts.foldl (fun acc i => modifyIdx (fun r => { r with MATCHES := r.MATCHES + 1 }) i acc) c

/-- Lines 135-136: `catalog.table['OVERLAPS'] += [isInside(...) for row ...]`. -/
def incrOverlaps (cand : Candidate) (c : List SourceRow) : List SourceRow :=
  c.map (fun r => if cand.inside (rowPos r) then { r with OVERLAPS := r.OVERLAPS + 1 } else r)

/-- The body of one successful candidate iteration (lines 128-136). -/
def applyCandidate (p1 : List Pos) (cand : Candidate) (c : List SourceRow) :
    List SourceRow :=
  incrOverlaps cand (incrMatches c (candTargets p1 cand))

/-- The candidate loop of lines 125-141: a found candidate is processed, an
absent one is skipped silently (`continue`), and any other retrieval failure
aborts the whole computation with its message. -/
def accumulateCands (p1 : List Pos) :
    List (Fetch Candidate) → List SourceRow → Except String (List SourceRow)
  | [], c => .ok c
  | .found cand :: rest, c => accumulateCands p1 rest (applyCandidate p1 cand c)
  | .notFound :: rest, c => accumulateCands p1 rest c
  | .ioError m :: _, _ => .error m

/-- Lines 123-141 in full: zero both counters, then run the candidate loop. -/
def matchCounts (p1 : List Pos) (cands : List (Fetch Candidate))
    (c : List SourceRow) : Except String (List SourceRow) :=
  accumulateCands p1 cands (resetCounts c)

/-- **C10.** The match computation zeroes `MATCHES` and `OVERLAPS` before any
candidate is processed, so its outcome is unchanged when the catalog enters
with arbitrary stale counter values: re-running an exposure never carries
counts over from a previous run. -/
theorem C10_counts_reset (p1 : List Pos) (cands : List (Fetch Candidate))
    (c : List SourceRow) (f : SourceRow → Nat × Nat) :
    matchCounts p1 cands
        (c.map (fun r => { r with MATCHES := (f r).1, OVERLAPS := (f r).2 }))
      = matchCounts p1 cands c := by
  rw [matchCounts, matchCounts]
  congr 1
  rw [resetCounts, resetCounts, List.map_map]
  rfl

theorem rowPos_modifyIdx (f : SourceRow → SourceRow)
    (hf : ∀ r, rowPos (f r) = rowPos r) (i : Nat) (l : List SourceRow) :
    (modifyIdx f i l).map rowPos = l.map rowPos := by
  induction l generalizing i with
  | nil => cases i <;> rfl
  | cons r rs ih =>
    cases i with
    | zero => simp [modifyIdx, hf r]
    | succ n => simp [modifyIdx, ih n]

theorem rowPos_incrMatches (c : List SourceRow) (ts : List Nat) :
    (incrMatches c ts).map rowPos = c.map rowPos := by
  induction ts generalizing c with
  | nil => rfl
  | cons t ts' ih =>
    show (incrMatches (modifyIdx _ t c) ts').map rowPos = c.map rowPos
    rw [ih, rowPos_modifyIdx]
    intro r
    rfl

theorem rowPos_incrOverlaps (cand : Candidate) (c : List SourceRow) :
    (incrOverlaps cand c).map rowPos = c.map rowPos := by
  rw [incrOverlaps, List.map_map]
  refine List.map_congr_left ?_
  intro r hr
  by_cases h : cand.inside (rowPos r) = true
  · simp [h]
    rfl
  · simp [h]

theorem get?_incrMatches_not_mem (c : List SourceRow) (ts : List Nat) (i : Nat)
    (h : i ∉ ts) : (incrMatches c ts).get? i = c.get? i := by
  induction ts generalizing c with
  | nil => rfl
  | cons t ts' ih =>
    show (incrMatches (modifyIdx _ t c) ts').get? i = c.get? i
    rw [ih _ (fun hm => h (List.mem_cons_of_mem t hm)),
      get?_modifyIdx_ne _ t i c (fun ht => h (ht ▸ List.mem_cons_self t ts'))]

theorem get?_incrMatches (c : List SourceRow) (ts : List Nat) (i : Nat)
    (hnd : ts.Nodup) :
    (incrMatches c ts).get? i =
      (c.get? i).map (fun r =>
        if i ∈ ts then { r with MATCHES := r.MATCHES + 1 } else r) := by
  induction ts generalizing c with
  | nil =>
    show c.get? i = _
    cases hc : c.get? i <;> simp
  | cons t ts' ih =>
    rcases List.nodup_cons.mp hnd with ⟨hts, hnd'⟩
    show (incrMatches (modifyIdx _ t c) ts').get? i = _
    by_cases hit : i = t
    · subst hit
      rw [get?_incrMatches_not_mem _ _ _ hts, get?_modifyIdx_self]
      cases hc : c.get? i <;> simp
    · rw [ih _ hnd', get?_modifyIdx_ne _ t i c (fun h => hit h.symm)]
      cases hc : c.get? i with
      | none => simp
      | some r0 =>
        by_cases hmem : i ∈ ts'
        · simp [hmem, hit]
        · simp [hmem, hit]

theorem candTargets_nodup (p1 : List Pos) (cand : Candidate) :
    (candTargets p1 cand).Nodup :=
  List.nodup_dedup _

/-- **C3 (amended).** After the match/overlap accumulation, `MATCHES ≤
OVERLAPS` holds for every row, *provided* every candidate-catalog detection
that matches a source lies inside that candidate's footprint (the source code
does not itself enforce this: `MATCHES` comes from the candidate's catalog
rows and `OVERLAPS` from its image polygon, two independent inputs). -/
theorem C3_matches_le_overlaps (p1 : List Pos) (cands : List (Fetch Candidate))
    (c0 res : List SourceRow)
    (hp : c0.map rowPos = p1)
    (Hin : ∀ cand, Fetch.found cand ∈ cands → ∀ i ∈ candTargets p1 cand,
      ∀ q, p1.get? i = some q → cand.inside q = true)
    (hres : matchCounts p1 cands c0 = Except.ok res) :
    ∀ r ∈ res, r.MATCHES ≤ r.OVERLAPS := by
  rw [matchCounts] at hres
  have hstart_pos : (resetCounts c0).map rowPos = p1 := by
    rw [resetCounts, List.map_map, ← hp]
    rfl
  have hstart_mo : ∀ r ∈ resetCounts c0, r.MATCHES ≤ r.OVERLAPS := by
    intro r hr
    rcases List.mem_map.mp hr with ⟨r0, _, hre⟩
    rw [← hre]
  suffices H : ∀ (cs : List (Fetch Candidate)) (c : List SourceRow),
      (∀ cand, Fetch.found cand ∈ cs → ∀ i ∈ candTargets p1 cand,
        ∀ q, p1.get? i = some q → cand.inside q = true) →
      c.map rowPos = p1 → (∀ r ∈ c, r.MATCHES ≤ r.OVERLAPS) →
      accumulateCands p1 cs c = Except.ok res →
      ∀ r ∈ res, r.MATCHES ≤ r.OVERLAPS by
    exact H cands (resetCounts c0) Hin hstart_pos hstart_mo hres
  intro cs
  induction cs with
  | nil =>
    intro c _ _ hmo hacc
    have hceq : c = res := by
      simpa [accumulateCands] using hacc
    intro r hr
    exact hmo r (hceq ▸ hr)
  | cons x rest ih =>
    intro c hin hpos hmo hacc
    cases x with
    | notFound =>
      refine ih c ?_ hpos hmo (by simpa [accumulateCands] using hacc)
      intro cand hc
      exact hin cand (List.mem_cons_of_mem _ hc)
    | ioError m =>
      simp [accumulateCands] at hacc
    | found cand =>
      refine ih (applyCandidate p1 cand c) ?_ ?_ ?_
        (by simpa [accumulateCands] using hacc)
      · intro cand' hc
        exact hin cand' (List.mem_cons_of_mem _ hc)
      · rw [applyCandidate, rowPos_incrOverlaps, rowPos_incrMatches]
        exact hpos
      · intro r' hr'
        rcases List.mem_iff_get?.mp hr' with ⟨i, hi⟩
        rw [applyCandidate, incrOverlaps, get?_map,
          get?_incrMatches c (candTargets p1 cand) i (candTargets_nodup p1 cand)] at hi
        cases hc : c.get? i with
        | none =>
          rw [hc] at hi
          exact absurd hi (by simp)
        | some r0 =>
          rw [hc] at hi
          have hmo0 : r0.MATCHES ≤ r0.OVERLAPS := hmo r0 (List.get?_mem hc)
          by_cases hmem : i ∈ candTargets p1 cand
          · have hq : p1.get? i = some (rowPos r0) := by
              rw [← hpos, get?_map, hc]
              rfl
            have hins : cand.inside (rowPos r0) = true :=
              hin cand (List.mem_cons_self _ _) i hmem (rowPos r0) hq
            have hr'eq :
                r' = { r0 with MATCHES := r0.MATCHES + 1, OVERLAPS := r0.OVERLAPS + 1 } := by
              have h2 := hi
              simp only [Option.map_some', if_pos hmem] at h2
              have h3 : cand.inside (rowPos { r0 with MATCHES := r0.MATCHES + 1 })
                  = true := hins
              rw [if_pos h3] at h2
              exact (Option.some.inj h2).symm
            rw [hr'eq]
            exact Nat.succ_le_succ hmo0
          · have h2 := hi
            simp only [Option.map_some', if_neg hmem] at h2
            by_cases hins : cand.inside (rowPos r0) = true
            · rw [if_pos hins] at h2
              rw [← (Option.some.inj h2)]
              exact le_trans hmo0 (Nat.le_succ _)
            · rw [if_neg hins] at h2
              rw [← (Option.some.inj h2)]
              exact hmo0

/-- A one-source catalog at the origin (stale counter values included: they
are reset by the computation). -/
def catC3 : List SourceRow := [⟨0, 0, 1, -1, 3, 7, "e", 0⟩]

/-- A candidate whose catalog has a detection exactly at the source's
position but whose footprint test rejects every point (catalog rows and image
polygon are independent inputs; nothing ties them together). -/
def candC3 : Candidate := ⟨[⟨0, 0⟩], fun _ => false⟩

/-- The accumulation outcome on that input: one match, zero overlaps. -/
def resC3 : List SourceRow := [⟨0, 0, 1, -1, 1, 0, "e", 0⟩]

/-- **C3 (counterexample).** A candidate can match a source positionally while
its footprint test does not contain the source, so the completed accumulation
holds a row with `MATCHES = 1 > 0 = OVERLAPS`: the claimed invariant fails on
the code as written. -/
theorem C3_counterexample :
    matchCounts (catC3.map rowPos) [Fetch.found candC3] catC3 = Except.ok resC3
    ∧ ¬ (∀ r ∈ resC3, r.MATCHES ≤ r.OVERLAPS) :=
  ⟨rfl, by decide⟩

/-- Witness catalog: one source at the origin. -/
def catC3w : List SourceRow := [⟨0, 0, 1, -1, 0, 0, "w", 0⟩]

/-- Witness candidate: a detection at the source and a footprint containing
everything. -/
def candC3w : Candidate := ⟨[⟨0, 0⟩], fun _ => true⟩

/-- The accumulation outcome of the witness scenario: `MATCHES = OVERLAPS = 1`. -/
def rowC3w : SourceRow := ⟨0, 0, 1, -1, 1, 1, "w", 0⟩

/-- **C3 (witness).** The amended theorem applied to the concrete scenario in
which the matched detection does lie inside the candidate's footprint. -/
theorem C3_witness : rowC3w.MATCHES ≤ rowC3w.OVERLAPS := by
  refine C3_matches_le_overlaps (catC3w.map rowPos) [Fetch.found candC3w] catC3w
    [rowC3w] rfl ?_ rfl rowC3w (List.Mem.head _)
  intro cand hcand i hi q hq
  have hc : Fetch.found cand = Fetch.found candC3w := List.mem_singleton.mp hcand
  have hc2 : cand = candC3w := by
    injection hc
  subst hc2
  rfl

/-!
## The per-task orchestrator (`run`, lines 17-57, and `match`, lines 84-143)

`run(expnum, ccd, prefix, version, dry_run, force)`:
* line 30: if `get_status(...)` is truthy (a success status is recorded) and
  `force` is false, return immediately — nothing is computed or written;
* lines 36-38: inside the `try`, if the module-level `dependency` is set and
  its status is not success, raise `IOError("...not yet run...")`;
* lines 44-45: `catalog = match(expnum, ccd)`; `split_to_hpx(catalog)` —
  the shard writes happen here, before any dry-run check;
* lines 47-48: `if dry_run: return` — this early return also skips the
  `set_status` call of line 57, so a successful dry run records no status;
* lines 52-57: any exception is caught, its message becomes the status;
  `set_status` records `storage.SUCCESS` or the failure message.  Nothing in
  `run` or its callees ever writes the exposure catalog back to storage: the
  comment of line 50 (`place the results into VOSpace`) is followed only by
  `logging.info`.

Storage-collaborator semantics (`get_status` truthiness meaning success,
`set_status`) are modelled from the spec (sections 3 and 4.5), as
`storage.py` is not among the provided sources.
-/

/-- The collaborators and inputs one `run` invocation sees. -/
structure RunEnv where
  status_done : Bool
  dependency : Option Bool
  primary : Fetch (List SourceRow)
  hpxOf : Pos → Nat
  shards : Nat → Option (List SourceRow)
  cands : List (Fetch Candidate)
  dataset : String
  mjdate : ℚ
  exptime : ℚ

/-- `storage.SUCCESS`, the module-level success message. -/
def SUCCESS : String := "success"

/-- `str(IOError("{} not yet run for {}"))` of line 38. -/
def depFailMsg : String := "dependency not yet run"

/-- `match(expnum, ccd)` (lines 84-143): retrieve the primary catalog (fatal
when absent), compute the `HEALPIX` column, assign identifiers against the
pixel shards, then run the match/overlap accumulation against the cone-search
candidates. -/
def matchTask (env : RunEnv) : Except String (List SourceRow) :=
  match env.primary with
  | .found rows =>
    matchCounts ((rows.map (fun r => { r with HEALPIX := env.hpxOf (rowPos r) })).map rowPos)
      env.cands
      (assignAll env.shards (rows.map (fun r => { r with HEALPIX := env.hpxOf (rowPos r) })))
  | .notFound => .error "no such catalog"
  | .ioError m => .error m

/-- The observable storage effects of one `run` invocation: the shard
`write`/`put` calls (pixel and contents), the number of exposure-catalog
writes, the status written at the end (`none` when `set_status` is never
reached), and whether the match computation was invoked. -/
structure RunResult where
  shardPuts : List (Nat × List SourceRow)
  catalogPuts : Nat
  statusWrite : Option String
  computed : Bool

/-- `run` (lines 17-57) as a function from its environment to its storage
effects.  `catalogPuts` is `0` on every path because no statement of
`stationary.py` writes the exposure catalog back. -/
def runTask (env : RunEnv) (dry_run force : Bool) : RunResult :=
  if env.status_done && !force then
    ⟨[], 0, none, false⟩
  else if env.dependency = some false then
    ⟨[], 0, some depFailMsg, false⟩
  else
    match matchTask env with
    | .error m => ⟨[], 0, some m, true⟩
    | .ok cat =>
      ⟨splitToHpx env.shards env.dataset (midMJD env.mjdate env.exptime) cat, 0,
        if dry_run then none else some SUCCESS, true⟩

/-- Skipping an absent candidate: an `ENOENT` entry anywhere in the candidate
list is equivalent to its removal — the loop `continue`s. -/
theorem accumulateCands_skip_notFound (p1 : List Pos) (xs ys : List (Fetch Candidate))
    (c : List SourceRow) :
    accumulateCands p1 (xs ++ Fetch.notFound :: ys) c
      = accumulateCands p1 (xs ++ ys) c := by
  induction xs generalizing c with
  | nil => rfl
  | cons x xs' ih =>
    cases x with
    | found cand => exact ih (applyCandidate p1 cand c)
    | notFound => exact ih c
    | ioError m => rfl

/-- The first non-`ENOENT` retrieval failure aborts the whole accumulation
with its message, whatever follows it. -/
theorem accumulateCands_error (p1 : List Pos) (ys : List (Fetch Candidate)) (m : String) :
    ∀ (xs : List (Fetch Candidate)) (c : List SourceRow),
      (∀ e, Fetch.ioError e ∉ xs) →
      accumulateCands p1 (xs ++ Fetch.ioError m :: ys) c = Except.error m := by
  intro xs
  induction xs with
  | nil =>
    intro c _
    rfl
  | cons x xs' ih =>
    intro c hxs
    have hxs' : ∀ e, Fetch.ioError e ∉ xs' :=
      fun e he => hxs e (List.mem_cons_of_mem x he)
    cases x with
    | found cand => exact ih (applyCandidate p1 cand c) hxs'
    | notFound => exact ih c hxs'
    | ioError e => exact absurd (List.mem_cons_self _ _) (hxs e)

/-- **C6.** An absent candidate catalog (`ENOENT`) is skipped silently and the
loop continues with the remaining candidates; any other retrieval failure
aborts the exposure's match computation, and `run` converts it into a recorded
failure status with the error's message, performs no shard write, and returns
to its caller (a `RunResult`, not a propagated exception). -/
theorem C6_error_policy (p1 : List Pos) (xs ys : List (Fetch Candidate)) (m : String)
    (c : List SourceRow) (env : RunEnv) (rows : List SourceRow) (dry force : Bool)
    (hxs : ∀ e, Fetch.ioError e ∉ xs)
    (hprimary : env.primary = Fetch.found rows)
    (hcands : env.cands = xs ++ Fetch.ioError m :: ys)
    (hnoskip : (env.status_done && !force) = false)
    (hdep : env.dependency ≠ some false) :
    accumulateCands p1 (xs ++ Fetch.notFound :: ys) c = accumulateCands p1 (xs ++ ys) c
    ∧ (runTask env dry force).statusWrite = some m
    ∧ (runTask env dry force).shardPuts = []
    ∧ (runTask env dry force).computed = true := by
  have hmt : matchTask env = Except.error m := by
    simp only [matchTask, hprimary]
    rw [hcands, matchCounts]
    exact accumulateCands_error _ ys m xs _ hxs
  refine ⟨accumulateCands_skip_notFound p1 xs ys c, ?_, ?_, ?_⟩ <;>
    simp [runTask, hnoskip, hdep, hmt]

/-- The environment of the C6 witness: the only candidate fails with a
non-`ENOENT` storage error. -/
def envC6 : RunEnv :=
  ⟨false, none, Fetch.found [], fun _ => 0, fun _ => none,
    [Fetch.ioError "boom"], "d6", 0, 0⟩

/-- **C6 (witness).** The error policy at a concrete environment. -/
theorem C6_witness :
    accumulateCands [] ([] ++ Fetch.notFound :: []) [] = accumulateCands [] ([] ++ []) []
    ∧ (runTask envC6 false false).statusWrite = some "boom"
    ∧ (runTask envC6 false false).shardPuts = []
    ∧ (runTask envC6 false false).computed = true :=
  C6_error_policy [] [] [] "boom" [] envC6 [] false false
    (fun e he => absurd he (List.not_mem_nil _)) rfl rfl rfl (by decide)

/-- **C7.** With a recorded success status and `force = false`, `run` returns
at once: nothing is computed and no storage or status write happens. -/
theorem C7_skip_if_done (env : RunEnv) (dry : Bool) (h : env.status_done = true) :
    (runTask env dry false).computed = false
    ∧ (runTask env dry false).shardPuts = []
    ∧ (runTask env dry false).catalogPuts = 0
    ∧ (runTask env dry false).statusWrite = none := by
  refine ⟨?_, ?_, ?_, ?_⟩ <;> simp [runTask, h]

/-- The environment of the C7 witness: status already success. -/
def envC7 : RunEnv :=
  ⟨true, none, Fetch.found [], fun _ => 0, fun _ => none, [], "d7", 0, 0⟩

/-- **C7 (witness).** The skip at a concrete environment. -/
theorem C7_witness :
    (runTask envC7 true false).computed = false
    ∧ (runTask envC7 true false).shardPuts = []
    ∧ (runTask envC7 true false).catalogPuts = 0
    ∧ (runTask envC7 true false).statusWrite = none :=
  C7_skip_if_done envC7 true rfl

/-- **C5.** With a named dependency whose status is not success (and no
skip), `run` records the dependency-failure message — which is not the
success status — and performs no shard or catalog write and no match
computation. -/
theorem C5_dependency_gate (env : RunEnv) (dry force : Bool)
    (hdep : env.dependency = some false)
    (hnoskip : (env.status_done && !force) = false) :
    (runTask env dry force).statusWrite = some depFailMsg
    ∧ depFailMsg ≠ SUCCESS
    ∧ (runTask env dry force).shardPuts = []
    ∧ (runTask env dry force).catalogPuts = 0
    ∧ (runTask env dry force).computed = false := by
  refine ⟨?_, by decide, ?_, ?_, ?_⟩ <;> simp [runTask, hnoskip, hdep]

/-- The environment of the C5 witness: the dependency exists and is not
successful. -/
def envC5 : RunEnv :=
  ⟨false, some false, Fetch.found [], fun _ => 0, fun _ => none, [], "d5", 0, 0⟩

/-- **C5 (witness).** The dependency gate at a concrete environment. -/
theorem C5_witness :
    (runTask envC5 false false).statusWrite = some depFailMsg
    ∧ depFailMsg ≠ SUCCESS
    ∧ (runTask envC5 false false).shardPuts = []
    ∧ (runTask envC5 false false).catalogPuts = 0
    ∧ (runTask envC5 false false).computed = false :=
  C5_dependency_gate envC5 false false rfl rfl

/-- The raw catalog row of the C1/C8 scenarios. -/
def rowC1 : SourceRow := ⟨0, 0, 0, -1, 0, 0, "raw", 0⟩

/-- The environment of the C1 scenario: a fresh task, one source falling in
pixel 3, no shard yet, no candidates. -/
def envC1 : RunEnv :=
  ⟨false, none, Fetch.found [rowC1], fun _ => 3, fun _ => none, [], "d1", 0, 0⟩

/-- **C1.** Under `dry_run = true` the full computation runs and the shard of
pixel 3 is still written and `put` (the `split_to_hpx` calls of lines 80-81
precede the `if dry_run: return` of line 47), while no status at all is
recorded (the early return skips `set_status`): the code contradicts both
halves of the claim and its own `--dry-run` help text (`don't copy results to
VOSpace`). -/
theorem C1_dry_run_bug :
    (runTask envC1 true false).shardPuts.map Prod.fst = [3]
    ∧ (runTask envC1 true false).statusWrite = none
    ∧ (runTask envC1 true false).computed = true :=
  ⟨rfl, rfl, rfl⟩

/-- The environment of the C8 scenario: as C1, in pixel 4. -/
def envC8 : RunEnv :=
  ⟨false, none, Fetch.found [rowC1], fun _ => 4, fun _ => none, [], "d8", 0, 0⟩

/-- **C8.** A successful non-dry run records the success status and performs
the per-pixel shard puts, but the exposure catalog is persisted zero times,
not once: the comment `place the results into VOSpace` of line 50 is followed
only by a `logging.info` call. -/
theorem C8_no_catalog_persist :
    (runTask envC8 false false).catalogPuts = 0
    ∧ (runTask envC8 false false).statusWrite = some SUCCESS
    ∧ (runTask envC8 false false).shardPuts.map Prod.fst = [4] :=
  ⟨rfl, rfl, rfl⟩
